import Mathlib

/-!
Verification of the expert-behavior trajectory extraction tool
(`250808ExtractionOfExpertsBehaviorHistory.py`, `250813ExtractionOfExpertsBehaviorHistory.py`).

The Python numeric code is embedded over `ℚ` (exact arithmetic idealizing the
floating-point computation).  Operations that produce nonfinite floats
(NaN / ±inf, e.g. a zero-length interpolation interval) are modeled with
`Option ℚ`, `none` standing for a nonfinite value.  `numpy.sqrt` on the
squared planar distances is modeled by `Rat.sqrt`, which is exact whenever the
radicand is a perfect square of a rational (every concrete input used below is
chosen that way) and is nonnegative, and positive on positive input, in
general — the only properties of the square root that the source algorithm's
verified claims depend on.

The angular/trigonometric display code (`convert_latlon_to_xy` claims,
heading estimation in `update_simulation`, `draw_target_ships`) is embedded
over `ℝ` with `Real.cos`/`Real.sin`/`Real.arctan`.
-/

namespace EEBH

/-- One row of a waypoint / trajectory DataFrame: the `time`, `lat`, `lon`
columns used by the reconstruction code. -/
structure WayPt where
  time : ℚ
  lat : ℚ
  lon : ℚ
deriving DecidableEq, Repr, Inhabited

/-- One row of the DataFrame built at the end of `interpolate_path`
(`pd.DataFrame({'time': new_t, 'x': new_x, 'y': new_y})` followed by
`result_df['lon'] = new_x; result_df['lat'] = new_y`).  Interpolated values
are `Option ℚ`, `none` marking a nonfinite float (NaN/inf). -/
structure PathRow where
  time : Option ℚ
  x : Option ℚ
  y : Option ℚ
  lon : Option ℚ
  lat : Option ℚ
deriving DecidableEq, Repr, Inhabited

/-- Model of `np.sqrt` on the nonnegative rationals appearing as squared
distances: exact on perfect squares (all concrete inputs below), nonnegative
everywhere, positive on positive input. -/
def npSqrt (q : ℚ) : ℚ := Rat.sqrt q

/-- Model of float division: `none` (nonfinite: NaN or ±inf) when the
denominator is zero. -/
def pyDivOpt (a b : ℚ) : Option ℚ := if b = 0 then none else some (a / b)

/-- The cumulative-distance loop of `interpolate_path`
(`cumulative_distances = [0.0]` then
`cumulative_distances.append(cumulative_distances[-1] + sqrt(dx*dx+dy*dy))`),
continued from accumulator `acc` and previous point `p`. -/
def cumDistFrom (acc : ℚ) (p : ℚ × ℚ) : List (ℚ × ℚ) → List ℚ
  | [] => []
  | q :: rest =>
    let d := acc + npSqrt ((q.1 - p.1) * (q.1 - p.1) + (q.2 - p.2) * (q.2 - p.2))
    d :: cumDistFrom d q rest

/-- `cumulative_distances` of `interpolate_path` over the `(x, y)` point list:
starts at `0.0`, each next entry adds the planar distance to the previous
point. -/
def cumulativeDistances : List (ℚ × ℚ) → List ℚ
  | [] => [0]
  | p :: rest => 0 :: cumDistFrom 0 p rest

/-- `np.linspace(a, b, n)` (with `endpoint=True`): `n` evenly spaced samples
from `a` to `b`; in exact arithmetic entry `i` is `a + i*(b-a)/(n-1)`
(for `n = 1` numpy returns `[a]`, matched here since the `i = 0` numerator
vanishes). -/
def linspace (a b : ℚ) (n : ℕ) : List ℚ :=
  (List.range n).map (fun i : ℕ => a + (i : ℚ) * (b - a) / ((n : ℚ) - 1))

/-- `np.arange(n)` as rationals. -/
def arange (n : ℕ) : List ℚ :=
  (List.range n).map (fun i : ℕ => (i : ℚ))

/-- The binary-search loop of `np.searchsorted(xs, t)` (default
`side='left'`): `lo = 0, hi = n`; while `lo < hi`, probe `mid = (lo+hi)/2`
and move `lo` past `mid` when `xs[mid] < t`, else drop `hi` to `mid`.
`fuel` bounds the iteration count (`xs.length` always suffices). -/
def bisectAux (xs : List ℚ) (t : ℚ) : ℕ → ℕ → ℕ → ℕ
  | 0, lo, _ => lo
  | fuel + 1, lo, hi =>
    if lo < hi then
      let mid := (lo + hi) / 2
      if xs.getD mid 0 < t then bisectAux xs t fuel (mid + 1) hi
      else bisectAux xs t fuel lo mid
    else lo

/-- `np.searchsorted(xs, t)` with the default `side='left'`. -/
def searchsorted (xs : List ℚ) (t : ℚ) : ℕ :=
  bisectAux xs t xs.length 0 xs.length

/-- `scipy.interpolate.interp1d(xs, ys, kind='linear')` evaluated at `t`:
`i = clip(searchsorted(xs, t), 1, len(xs)-1)`, `lo = i-1`,
`slope = (ys[i]-ys[lo])/(xs[i]-xs[lo])`, value `slope*(t-xs[lo])+ys[lo]`
(`fill_value="extrapolate"` is this same formula on the outer intervals).
A zero-length interval makes the slope nonfinite: `none`. -/
def callLinear (xs ys : List ℚ) (t : ℚ) : Option ℚ :=
  let i := min (max (searchsorted xs t) 1) (xs.length - 1)
  let lo := i - 1
  let xlo := xs.getD lo 0
  let xhi := xs.getD i 0
  let ylo := ys.getD lo 0
  let yhi := ys.getD i 0
  match pyDivOpt (yhi - ylo) (xhi - xlo) with
  | none => none
  | some slope => some (slope * (t - xlo) + ylo)

/-- Dot product of two coefficient lists. -/
def dotL (a b : List ℚ) : ℚ := (List.zipWith (· * ·) a b).sum

/-- Division with the Cox-de Boor convention that a term with a zero-length
knot span contributes zero. -/
def divz (a b : ℚ) : ℚ := if b = 0 then 0 else a / b

/-- The not-a-knot knot vector built by `scipy.interpolate.make_interp_spline`
for `k = 3` (used by `interp1d(..., kind='cubic')`): the first data site four
times, the interior data sites with the second and second-to-last omitted,
the last data site four times. -/
def notAKnotKnots (xs : List ℚ) : List ℚ :=
  match xs with
  | [] => []
  | x :: _ =>
    let xl := xs.getD (xs.length - 1) 0
    List.replicate 4 x ++ (xs.drop 2).dropLast.dropLast ++ List.replicate 4 xl

/-- Degree-0 B-spline over knot vector `t`: the indicator of
`[t_j, t_{j+1})`, closed at the right end of the overall knot range
(the usual right-endpoint convention of `splev`). -/
def bspline0 (t : List ℚ) (j : ℕ) (q : ℚ) : ℚ :=
  let tj := t.getD j 0
  let tj1 := t.getD (j + 1) 0
  let tmax := t.getD (t.length - 1) 0
  if tj ≤ q ∧ (q < tj1 ∨ (q = tj1 ∧ tj1 = tmax ∧ tj < tj1)) then 1 else 0

/-- Cox-de Boor recursion for the degree-`d` B-spline basis functions over
knot vector `t` (zero-span terms dropped, as in `splev`). -/
def bsplineB (t : List ℚ) : ℕ → ℕ → ℚ → ℚ
  | 0, j, q => bspline0 t j q
  | d + 1, j, q =>
    divz (q - t.getD j 0) (t.getD (j + d + 1) 0 - t.getD j 0) * bsplineB t d j q +
      divz (t.getD (j + d + 2) 0 - q) (t.getD (j + d + 2) 0 - t.getD (j + 1) 0) *
        bsplineB t d (j + 1) q

/-- The row of all `n` cubic B-spline basis functions over the not-a-knot
knot vector of `xs`, evaluated at `q`. -/
def basisRow (xs : List ℚ) (q : ℚ) : List ℚ :=
  (List.range xs.length).map (fun j => bsplineB (notAKnotKnots xs) 3 j q)

/-- The collocation matrix of `make_interp_spline(xs, ys, k=3)`: row `i` is
the basis row at data site `xs[i]`. -/
def collocMat (xs : List ℚ) : List (List ℚ) :=
  xs.map (fun xi => basisRow xs xi)

/-- `r - factor * p`, componentwise (one elimination update). -/
def subScaled (r p : List ℚ) (factor : ℚ) : List ℚ :=
  List.zipWith (fun a b => a - factor * b) r p

/-- Forward elimination on augmented rows: repeatedly pick a row with a
nonzero entry in the current column as pivot, eliminate that column from the
remaining rows, and recurse on the next column.  `none` when no pivot exists
(singular system — scipy's solver raises `LinAlgError` there). -/
def gaussFwd : ℕ → List (List ℚ) → ℕ → Option (List (List ℚ))
  | 0, _, _ => some []
  | fuel + 1, rows, col =>
    match rows.findIdx? (fun r => decide (r.getD col 0 ≠ 0)) with
    | none => none
    | some i =>
      let p := rows.getD i []
      let rest := (rows.eraseIdx i).map (fun r => subScaled r p (r.getD col 0 / p.getD col 0))
      match gaussFwd fuel rest (col + 1) with
      | none => none
      | some tri => some (p :: tri)

/-- Back substitution on the triangularized augmented rows (`n` variables;
row for variable `k` has its pivot in column `k` and the right-hand side in
column `n`). -/
def backSub (n : ℕ) : List (List ℚ) → ℕ → List ℚ
  | [], _ => []
  | r :: rest, k =>
    let xs := backSub n rest (k + 1)
    let s := dotL ((r.take n).drop (k + 1)) xs
    (r.getD n 0 - s) / r.getD k 0 :: xs

/-- Exact linear solve by Gaussian elimination on the augmented matrix. -/
def gaussSolve (A : List (List ℚ)) (b : List ℚ) : Option (List ℚ) :=
  let n := A.length
  let aug := List.zipWith (fun r v => r ++ [v]) A b
  match gaussFwd n aug 0 with
  | none => none
  | some tri => some (backSub n tri 0)

/-- The solver contract of `scipy.linalg.solve` under exact arithmetic: a
successful solve of a nonsingular system returns the exact solution (a
singular system raises).  The final residual check realizes that contract
directly; in exact arithmetic it never rejects a successful elimination. -/
def solveChecked (A : List (List ℚ)) (b : List ℚ) : Option (List ℚ) :=
  match gaussSolve A b with
  | none => none
  | some c => if A.map (fun row => dotL row c) = b then some c else none

/-- `scipy.interpolate.interp1d(xs, ys, kind='cubic')`: fit the not-a-knot
cubic B-spline through the data by solving the collocation system, then
evaluate the B-spline combination at the query.  A failed fit (scipy raises)
makes every evaluation nonfinite (`none`). -/
def callCubic (xs ys : List ℚ) : ℚ → Option ℚ :=
  match solveChecked (collocMat xs) ys with
  | none => fun _ => none
  | some c => fun q => some (dotL (basisRow xs q) c)

/-- `interp1d(xs, ys, kind=...)` with the two kinds `interpolate_path`
selects between. -/
def mkInterp (xs ys : List ℚ) (cubic : Bool) : ℚ → Option ℚ :=
  if cubic then callCubic xs ys else fun t => callLinear xs ys t

/-- The knot sequence `interpolate_path` actually parameterizes by: the
cumulative planar distances of the waypoint `(lon, lat)` points. -/
def pathKnots (wps : List WayPt) : List ℚ :=
  cumulativeDistances ((wps.map (·.lon)).zip (wps.map (·.lat)))

/-- The time axis of `interpolate_path` (lines 6205-6216): the `os_data`
time column verbatim when its length matches the requested count, an
index-space linear interpolation of it otherwise, and
`np.arange(total_time_steps)` when no time data is supplied. -/
def newTimes (osTimes : Option (List ℚ)) (M : ℕ) : List (Option ℚ) :=
  match osTimes with
  | some ts =>
    if ts.length = M then ts.map some
    else (linspace 0 ((ts.length : ℚ) - 1) M).map
      (fun q => callLinear (arange ts.length) ts q)
  | none => (arange M).map some

/-- `interpolate_path(waypoints_df, total_time_steps, os_data)` from
`250813ExtractionOfExpertsBehaviorHistory.py` (lines 6163-6224).  Fewer than
2 waypoints: the input DataFrame is returned unchanged (`.inl`).  Otherwise
(`.inr`): with `lat`/`lon` columns present, `x_points` are the longitudes and
`y_points` the latitudes; the cumulative planar distances are the
interpolation parameter; the kind is `'cubic'` for more than 3 waypoints,
else `'linear'`; the parameter is resampled by `linspace` into
`total_time_steps` values; the time axis is the `os_data` time column
verbatim when its length matches, an index-space linear interpolation of it
otherwise, and `arange(total_time_steps)` when no time data is supplied;
finally `lon`/`lat` columns are copies of the `x`/`y` columns. -/
def interpolate_path (wps : List WayPt) (M : ℕ) (osTimes : Option (List ℚ)) :
    List WayPt ⊕ List PathRow :=
  if wps.length < 2 then .inl wps else
  let xP := wps.map (·.lon)
  let yP := wps.map (·.lat)
  let cd := cumulativeDistances (xP.zip yP)
  let cubic := decide (3 < wps.length)
  let fx := mkInterp cd xP cubic
  let fy := mkInterp cd yP cubic
  let nd := linspace (cd.getD 0 0) (cd.getD (cd.length - 1) 0) M
  let nt := newTimes osTimes M
  let rows := List.zipWith
    (fun t d =>
      let xv := fx d
      let yv := fy d
      { time := t, x := xv, y := yv, lon := xv, lat := yv : PathRow })
    nt nd
  .inr rows

/-- The rows of an `interpolate_path` result (empty for the fewer-than-2
early return, whose value keeps the waypoint schema). -/
def getRows : List WayPt ⊕ List PathRow → List PathRow
  | .inl _ => []
  | .inr r => r

/-- Number of rows of an `interpolate_path` result, whichever shape it has. -/
def resultLength : List WayPt ⊕ List PathRow → ℕ
  | .inl l => l.length
  | .inr r => r.length

/-- Minimum of a `pandas` numeric column (`df['time'].min()`). -/
def listMin : List ℚ → ℚ
  | [] => 0
  | h :: t => t.foldl min h

/-- Maximum of a `pandas` numeric column (`df['time'].max()`). -/
def listMax : List ℚ → ℚ
  | [] => 0
  | h :: t => t.foldl max h

/-- `initialize_waypoints_from_trajectory(trajectory_df, num_waypoints)`
(250813 file, lines 6094-6128).  Fewer than 2 samples: the trajectory is
returned unchanged.  `num_waypoints=None` defaults to
`min(max(3, len//20), 10)`.  Target times are `[min]` for a single waypoint,
else `linspace(min_time, max_time, num)`.  Each waypoint is a copy of the
sample at index `min(searchsorted(times, t), len-1)` with its `time`
overwritten by the target time. -/
def initialize_waypoints_from_trajectory (traj : List WayPt) (num : Option ℕ) :
    List WayPt :=
  if traj.length < 2 then traj else
  let n := num.getD (min (max 3 (traj.length / 20)) 10)
  let times := traj.map (·.time)
  let tmin := listMin times
  let tmax := listMax times
  let tps := if n = 1 then [tmin] else linspace tmin tmax n
  tps.map (fun t =>
    let idx := min (searchsorted times t) (traj.length - 1)
    let w := traj.getD idx default
    { w with time := t })

/-- Helper for `specMergeDuplicates`: drop each point at zero planar distance
from the last kept point. -/
def specMergeAux (p : WayPt) : List WayPt → List WayPt
  | [] => []
  | q :: rest =>
    if q.lon = p.lon ∧ q.lat = p.lat then specMergeAux p rest
    else q :: specMergeAux q rest

/-- Consecutive-duplicate merging as the specification describes it ("if
consecutive points have zero planar distance, drop the later one").  No such
step exists in the source; this definition follows the specification's words
and is used only to compare the claims against the code. -/
def specMergeDuplicates : List WayPt → List WayPt
  | [] => []
  | p :: rest => p :: specMergeAux p rest

/-- `convert_latlon_to_xy(lat, lon, center_lat, center_lon)`:
`x = (lon - center_lon) * 60 * 70`, `y = -(lat - center_lat) * 60 * 70`.
All four source variants (SimCanvas lines 1603-1626 and AISDataProcessor
lines 1935-1947 and 5541-5545 of the 250813 file, SimCanvas lines 572-582 of
the 250808 file) compute exactly this; the debug printing in the first
variant does not affect the returned value. -/
def convert_latlon_to_xy (lat lon center_lat center_lon : ℚ) : ℚ × ℚ :=
  ((lon - center_lon) * 60 * 70, -(lat - center_lat) * 60 * 70)

/-- The screen-to-geodetic inverse used by `mousePressEvent` of the 250808
file (lines 593-615): `new_lat = center_lat - rel_y / (60*70)`,
`new_lon = center_lon + rel_x / (60*70)`. -/
def convert_xy_to_latlon (x y center_lat center_lon : ℚ) : ℚ × ℚ :=
  (center_lat - y / (60 * 70), center_lon + x / (60 * 70))

/-- The concrete control-point scenario of the specification's testable
properties: `[(lon=0, lat=0, t=0), (lon=0, lat=0.01, t=10),
(lon=0.02, lat=0.01, t=20)]`. -/
def c1ControlPoints : List WayPt := [⟨0, 0, 0⟩, ⟨10, 1/100, 0⟩, ⟨20, 1/100, 1/50⟩]

/-- A control-point list whose first two points coincide (zero planar
distance), the third one degree of longitude away. -/
def c2DupInput : List WayPt := [⟨0, 0, 0⟩, ⟨1, 0, 0⟩, ⟨2, 0, 1⟩]

/-- A control-point list with a duplicated leading point at `(lat 2, lon 5)`
followed by `(lat 2, lon 7)`. -/
def c3DupInput : List WayPt := [⟨0, 2, 5⟩, ⟨1, 2, 5⟩, ⟨2, 2, 7⟩]

/-- A two-sample trajectory: `(t=0, lat=0, lon=0)` and `(t=10, lat=1, lon=1)`. -/
def c4TwoSampleTraj : List WayPt := [⟨0, 0, 0⟩, ⟨10, 1, 1⟩]

/-- Three distinct collinear control points along the equator. -/
def threePointLine : List WayPt := [⟨0, 0, 0⟩, ⟨1, 0, 1⟩, ⟨2, 0, 2⟩]

/-- Two distinct control points. -/
def twoPointLine : List WayPt := [⟨0, 0, 0⟩, ⟨1, 1, 1⟩]

noncomputable section RealSide

/-- The x-coordinate formula asserted by the specification for `toLocal`
("degrees longitude scaled by `cos(refLat)`"):
`(lon - refLon) * cos(refLat) * 60 * SCALE` with `SCALE = 70` pixels per
nautical mile and the reference latitude in degrees.  Stated from the
specification's words, for comparison with the source. -/
def claimToLocalX (lon center_lat center_lon : ℝ) : ℝ :=
  (lon - center_lon) * Real.cos (center_lat * Real.pi / 180) * 60 * 70

/-- `math.atan2(y, x)`: four-quadrant arctangent with range `(-π, π]`
(`atan2(0, 0) = 0` as for Python's positive zeros). -/
def pyAtan2 (y x : ℝ) : ℝ :=
  if 0 < x then Real.arctan (y / x)
  else if x < 0 then
    (if 0 ≤ y then Real.arctan (y / x) + Real.pi else Real.arctan (y / x) - Real.pi)
  else if 0 < y then Real.pi / 2
  else if y < 0 then -(Real.pi / 2)
  else 0

/-- `math.degrees`. -/
def degrees (z : ℝ) : ℝ := z * 180 / Real.pi

/-- Python's float `%` with a positive modulus: `a - b * floor(a / b)`,
giving a value in `[0, b)`. -/
def pyMod (a b : ℝ) : ℝ := a - b * (⌊a / b⌋ : ℤ)

/-- The bearing computation of `update_simulation` (250813 file, lines
3964-3971): `bearing = degrees(atan2(dx, -dy))`, then `+360` if negative. -/
def bearingDeg (dx dy : ℝ) : ℝ :=
  let b := degrees (pyAtan2 dx (-dy))
  if b < 0 then b + 360 else b

/-- Heading normalization of `update_simulation` (lines 3973-3983): a
missing/NaN reported course (`none`) defaults to `0.0`, then `% 360`. -/
def normalizeCourse (raw : Option ℝ) : ℝ := pyMod (raw.getD 0) 360

/-- The course/bearing discrepancy of `update_simulation` (lines 3987-3989):
`abs(normalized - bearing)`, folded to at most `180` by `360 - diff` when
above `180`. -/
def directionDiff (co bearing : ℝ) : ℝ :=
  let d := |co - bearing|
  if 180 < d then 360 - d else d

/-- The heading `update_simulation` assigns to a target for display (lines
3983-3996 and 4028): the bearing when the discrepancy exceeds `90`, the
normalized reported course otherwise. -/
def estimated_heading (dx dy : ℝ) (raw : Option ℝ) : ℝ :=
  let b := bearingDeg dx dy
  let n := normalizeCourse raw
  if 90 < directionDiff n b then b else n

/-- A drawn vessel: screen position and the heading passed to `draw_ship`. -/
structure DrawnShip where
  x : ℝ
  y : ℝ
  heading : ℝ

/-- `draw_target_ships` of the 250813 file (lines 1345-1381, relative-motion
mode): the offset from the canvas center is rotated by the own-ship heading
(`rotated_x = rel_x*cos_h + rel_y*sin_h`, `rotated_y = -rel_x*sin_h +
rel_y*cos_h`), and the target is drawn with its absolute heading
(`absolute_heading = ship['heading']`; both the dict and the tuple branch). -/
def draw_target_ships_v813 (sx sy heading cx cy os_heading : ℝ) : DrawnShip :=
  let rel_x := sx - cx
  let rel_y := sy - cy
  let cos_h := Real.cos (os_heading * Real.pi / 180)
  let sin_h := Real.sin (os_heading * Real.pi / 180)
  let rotated_x := rel_x * cos_h + rel_y * sin_h
  let rotated_y := -rel_x * sin_h + rel_y * cos_h
  ⟨cx + rotated_x, cy + rotated_y, heading⟩

/-- `draw_target_ships` of the 250808 file (lines 386-417, relative-motion
mode): same rotated position, but drawn with
`relative_heading = (ship['heading'] - self.os_heading) % 360`. -/
def draw_target_ships_v808 (sx sy heading cx cy os_heading : ℝ) : DrawnShip :=
  let rel_x := sx - cx
  let rel_y := sy - cy
  let cos_h := Real.cos (os_heading * Real.pi / 180)
  let sin_h := Real.sin (os_heading * Real.pi / 180)
  let rotated_x := rel_x * cos_h + rel_y * sin_h
  let rotated_y := -rel_x * sin_h + rel_y * cos_h
  ⟨cx + rotated_x, cy + rotated_y, pyMod (heading - os_heading) 360⟩

end RealSide

/-! ## Helper lemmas -/

/-- `cumDistFrom` yields one entry per remaining point. -/
theorem cumDistFrom_length (p : ℚ × ℚ) (l : List (ℚ × ℚ)) (acc : ℚ) :
    (cumDistFrom acc p l).length = l.length := by
  induction l generalizing acc p with
  | nil => rfl
  | cons q rest ih => simp [cumDistFrom, ih]

/-- The cumulative-distance parameter has one entry per input point: no point
is ever dropped. -/
theorem pathKnots_length (wps : List WayPt) (h : wps ≠ []) :
    (pathKnots wps).length = wps.length := by
  cases wps with
  | nil => exact absurd rfl h
  | cons p rest =>
    simp [pathKnots, cumulativeDistances, cumDistFrom_length]

/-- Python float `%` with a positive modulus lands in `[0, b)`. -/
theorem pyMod_mem (a b : ℝ) (hb : 0 < b) : 0 ≤ pyMod a b ∧ pyMod a b < b := by
  unfold pyMod
  have h1 : ((⌊a / b⌋ : ℤ) : ℝ) ≤ a / b := Int.floor_le _
  have h2 : a / b < (⌊a / b⌋ : ℤ) + 1 := Int.lt_floor_add_one _
  have h3 : ((⌊a / b⌋ : ℤ) : ℝ) * b ≤ a := (le_div_iff₀ hb).mp h1
  have h4 : a < ((⌊a / b⌋ : ℤ) + 1) * b := (div_lt_iff₀ hb).mp h2
  constructor <;> nlinarith

/-- `math.atan2` stays at or below `π`. -/
theorem pyAtan2_le_pi (y x : ℝ) : pyAtan2 y x ≤ Real.pi := by
  have hpi : 0 < Real.pi := Real.pi_pos
  unfold pyAtan2
  split_ifs with hx hx2 hy hy2 hy3
  · exact (Real.arctan_lt_pi_div_two _).le.trans (by linarith)
  · have hyx : y / x ≤ 0 := div_nonpos_of_nonneg_of_nonpos hy (le_of_lt hx2)
    have : Real.arctan (y / x) ≤ 0 := by
      have := Real.arctan_strictMono.monotone hyx
      rwa [Real.arctan_zero] at this
    linarith
  · have := Real.arctan_lt_pi_div_two (y / x)
    linarith
  · linarith
  · linarith
  · linarith

/-- `math.atan2` stays strictly above `-π`. -/
theorem neg_pi_lt_pyAtan2 (y x : ℝ) : -Real.pi < pyAtan2 y x := by
  have hpi : 0 < Real.pi := Real.pi_pos
  unfold pyAtan2
  split_ifs with hx hx2 hy hy2 hy3
  · have := Real.neg_pi_div_two_lt_arctan (y / x)
    linarith
  · have := Real.neg_pi_div_two_lt_arctan (y / x)
    linarith
  · have hyx : 0 < y / x := div_pos_of_neg_of_neg (lt_of_not_le hy) hx2
    have : 0 < Real.arctan (y / x) := by
      have := Real.arctan_strictMono hyx
      rwa [Real.arctan_zero] at this
    linarith
  · linarith
  · linarith
  · linarith

/-- The bearing of `update_simulation` lands in `[0, 360)`. -/
theorem bearingDeg_mem (dx dy : ℝ) : 0 ≤ bearingDeg dx dy ∧ bearingDeg dx dy < 360 := by
  have hpi : 0 < Real.pi := Real.pi_pos
  have h1 : -Real.pi < pyAtan2 dx (-dy) := neg_pi_lt_pyAtan2 dx (-dy)
  have h2 : pyAtan2 dx (-dy) ≤ Real.pi := pyAtan2_le_pi dx (-dy)
  unfold bearingDeg degrees
  dsimp only
  have hb1 : pyAtan2 dx (-dy) * 180 / Real.pi ≤ 180 := by
    rw [div_le_iff₀ hpi]
    nlinarith
  have hb2 : -180 < pyAtan2 dx (-dy) * 180 / Real.pi := by
    rw [lt_div_iff₀ hpi]
    nlinarith
  split_ifs with h
  · constructor <;> linarith
  · constructor <;> linarith

/-- A wrapped angular difference of two angles in `[0, 360)` lies in
`[0, 180]`. -/
theorem directionDiff_mem (co b : ℝ) (hco : 0 ≤ co ∧ co < 360)
    (hb : 0 ≤ b ∧ b < 360) :
    0 ≤ directionDiff co b ∧ directionDiff co b ≤ 180 := by
  have habs : |co - b| < 360 := abs_lt.mpr ⟨by linarith [hco.1, hb.2], by linarith [hco.2, hb.1]⟩
  have habs0 : 0 ≤ |co - b| := abs_nonneg _
  unfold directionDiff
  dsimp only
  split_ifs with h
  · constructor <;> linarith
  · constructor <;> linarith

/-! ## Claim C7 -/

/-- Claim C7: per target and update, the bearing `degrees(atan2(dx, -dy))`
(wrapped into `[0, 360)`) and the discrepancy `diff` (the absolute difference
of the normalized reported course and the bearing, folded to at most `180`)
determine the displayed heading: the bearing when `diff > 90`, the normalized
reported course otherwise. -/
theorem c7_heading_override (dx dy : ℝ) (raw : Option ℝ) :
    (0 ≤ bearingDeg dx dy ∧ bearingDeg dx dy < 360) ∧
    (0 ≤ directionDiff (normalizeCourse raw) (bearingDeg dx dy) ∧
      directionDiff (normalizeCourse raw) (bearingDeg dx dy) ≤ 180) ∧
    estimated_heading dx dy raw =
      (if 90 < directionDiff (normalizeCourse raw) (bearingDeg dx dy)
        then bearingDeg dx dy else normalizeCourse raw) := by
  refine ⟨bearingDeg_mem dx dy, ?_, rfl⟩
  have hco : 0 ≤ normalizeCourse raw ∧ normalizeCourse raw < 360 :=
    pyMod_mem _ 360 (by norm_num)
  exact directionDiff_mem _ _ hco (bearingDeg_mem dx dy)

/-! ## Claim C6 -/

/-- Claim C6: the geodetic-to-local transform composed with the
screen-to-geodetic inverse of the 250808 file is the identity — exactly, and
in particular within `1e-9` degrees. -/
theorem c6_roundtrip (lat lon clat clon : ℚ) :
    convert_xy_to_latlon (convert_latlon_to_xy lat lon clat clon).1
        (convert_latlon_to_xy lat lon clat clon).2 clat clon = (lat, lon) ∧
    |(convert_xy_to_latlon (convert_latlon_to_xy lat lon clat clon).1
        (convert_latlon_to_xy lat lon clat clon).2 clat clon).1 - lat| ≤
      1 / 1000000000 ∧
    |(convert_xy_to_latlon (convert_latlon_to_xy lat lon clat clon).1
        (convert_latlon_to_xy lat lon clat clon).2 clat clon).2 - lon| ≤
      1 / 1000000000 := by
  have h1 : (convert_xy_to_latlon (convert_latlon_to_xy lat lon clat clon).1
      (convert_latlon_to_xy lat lon clat clon).2 clat clon).1 = lat := by
    simp only [convert_latlon_to_xy, convert_xy_to_latlon]
    ring
  have h2 : (convert_xy_to_latlon (convert_latlon_to_xy lat lon clat clon).1
      (convert_latlon_to_xy lat lon clat clon).2 clat clon).2 = lon := by
    simp only [convert_latlon_to_xy, convert_xy_to_latlon]
    ring
  refine ⟨Prod.ext h1 h2, ?_, ?_⟩
  · rw [h1]; simp
  · rw [h2]; simp

/-! ## Claim C5 -/

/-- Claim C5 counterexample: at reference latitude 60° and a one-degree
longitude difference, the code returns `x = 4200` while the claimed formula
`(lon - refLon) * cos(refLat) * 60 * SCALE` gives `2100`. -/
theorem c5_counterexample :
    (((convert_latlon_to_xy 0 1 60 0).1 : ℚ) : ℝ) ≠ claimToLocalX 1 60 0 := by
  have hc : claimToLocalX 1 60 0 = 2100 := by
    unfold claimToLocalX
    have h : (60 : ℝ) * Real.pi / 180 = Real.pi / 3 := by ring
    rw [h, Real.cos_pi_div_three]
    norm_num
  rw [hc]
  have hx : (convert_latlon_to_xy 0 1 60 0).1 = 4200 := by
    norm_num [convert_latlon_to_xy]
  rw [hx]
  norm_num

/-- Claim C5 amended: `convert_latlon_to_xy` applies no `cos(refLat)`
scaling: `x = (lon - refLon) * 60 * 70` independently of the reference
latitude, and `y = -(lat - refLat) * 60 * 70`. -/
theorem c5_amended (lat lon clat clat2 clon : ℚ) :
    (convert_latlon_to_xy lat lon clat clon).1 = (lon - clon) * 60 * 70 ∧
    (convert_latlon_to_xy lat lon clat clon).1 =
      (convert_latlon_to_xy lat lon clat2 clon).1 ∧
    (convert_latlon_to_xy lat lon clat clon).2 = -(lat - clat) * 60 * 70 :=
  ⟨rfl, rfl, rfl⟩

/-! ## Claim C8 -/

/-- Claim C8 counterexample: in the 250813 relative-motion drawing code, a
target with heading 90° seen from an own ship with heading 90° is drawn with
heading 90 (its absolute heading), not `(90 - 90) % 360 = 0` as the claim
states. -/
theorem c8_counterexample :
    (draw_target_ships_v813 0 0 90 0 0 90).heading = 90 ∧
    pyMod ((90 : ℝ) - 90) 360 = 0 ∧
    (draw_target_ships_v813 0 0 90 0 0 90).heading ≠ pyMod ((90 : ℝ) - 90) 360 := by
  have hm : pyMod ((90 : ℝ) - 90) 360 = 0 := by
    unfold pyMod
    norm_num
  refine ⟨rfl, hm, ?_⟩
  rw [hm]
  show (90 : ℝ) ≠ 0
  norm_num

/-- Claim C8 amended: in relative-motion mode both versions draw the target
at the own-ship-centered offset rotated by the own-ship heading
(`x' = dx*cos h + dy*sin h`, `y' = -dx*sin h + dy*cos h`); the 250808 version
displays `(target.heading - ownship.heading) % 360` while the 250813 version
displays the target's absolute heading unchanged. -/
theorem c8_amended (sx sy h cx cy osH : ℝ) :
    draw_target_ships_v813 sx sy h cx cy osH =
      ⟨cx + ((sx - cx) * Real.cos (osH * Real.pi / 180) +
          (sy - cy) * Real.sin (osH * Real.pi / 180)),
        cy + (-(sx - cx) * Real.sin (osH * Real.pi / 180) +
          (sy - cy) * Real.cos (osH * Real.pi / 180)), h⟩ ∧
    draw_target_ships_v808 sx sy h cx cy osH =
      ⟨cx + ((sx - cx) * Real.cos (osH * Real.pi / 180) +
          (sy - cy) * Real.sin (osH * Real.pi / 180)),
        cy + (-(sx - cx) * Real.sin (osH * Real.pi / 180) +
          (sy - cy) * Real.cos (osH * Real.pi / 180)),
        pyMod (h - osH) 360⟩ :=
  ⟨rfl, rfl⟩

/-! ## Claim C9 -/

/-- Claim C9 counterexample: a single-anchor input with `outputLength = 5`
yields one row (the input returned unchanged), not 5 copies of the point. -/
theorem c9_counterexample :
    resultLength (interpolate_path [(⟨0, 1, 1⟩ : WayPt)] 5 none) = 1 ∧
    resultLength (interpolate_path [(⟨0, 1, 1⟩ : WayPt)] 5 none) ≠ 5 := by
  constructor <;> decide

/-- Claim C9 amended: with fewer than 2 control points, `interpolate_path`
does not fail and returns the input waypoint DataFrame unchanged — a single
row for a single anchor — regardless of the requested output length. -/
theorem c9_amended (p : WayPt) (M : ℕ) (os : Option (List ℚ)) :
    interpolate_path [p] M os = .inl [p] := rfl

/-! ## Binary search (`np.searchsorted`) -/

/-- Loop invariant of the `searchsorted` bisection: on a sorted list, every
index left of the result holds a value below the query and every index from
the result on holds a value at or above it. -/
theorem bisectAux_invariant (xs : List ℚ) (t : ℚ)
    (hm : ∀ i j, i ≤ j → j < xs.length → xs.getD i 0 ≤ xs.getD j 0) :
    ∀ fuel lo hi, hi - lo ≤ fuel → lo ≤ hi → hi ≤ xs.length →
      (∀ j, j < lo → xs.getD j 0 < t) →
      (∀ j, hi ≤ j → j < xs.length → t ≤ xs.getD j 0) →
      (∀ j, j < bisectAux xs t fuel lo hi → xs.getD j 0 < t) ∧
      (∀ j, bisectAux xs t fuel lo hi ≤ j → j < xs.length → t ≤ xs.getD j 0) ∧
      lo ≤ bisectAux xs t fuel lo hi ∧ bisectAux xs t fuel lo hi ≤ hi := by
  intro fuel
  induction fuel with
  | zero =>
    intro lo hi hf hlh hhi hlo hhigh
    have hdone : lo = hi := by omega
    subst hdone
    simp only [bisectAux]
    exact ⟨hlo, fun j hj1 hj2 => hhigh j hj1 hj2, le_refl _, le_refl _⟩
  | succ fuel ih =>
    intro lo hi hf hlh hhi hlo hhigh
    simp only [bisectAux]
    by_cases hlth : lo < hi
    · rw [if_pos hlth]
      have hmid1 : lo ≤ (lo + hi) / 2 := by omega
      have hmid2 : (lo + hi) / 2 < hi := by omega
      by_cases hc : xs.getD ((lo + hi) / 2) 0 < t
      · rw [if_pos hc]
        obtain ⟨a, b, c, d⟩ := ih ((lo + hi) / 2 + 1) hi (by omega) (by omega) hhi
          (fun j hj =>
            lt_of_le_of_lt (hm j ((lo + hi) / 2) (by omega) (by omega)) hc)
          hhigh
        exact ⟨a, b, le_trans (by omega) c, d⟩
      · rw [if_neg hc]
        push_neg at hc
        obtain ⟨a, b, c, d⟩ := ih lo ((lo + hi) / 2) (by omega) (by omega) (by omega)
          hlo
          (fun j hj1 hj2 => le_trans hc (hm ((lo + hi) / 2) j hj1 hj2))
        exact ⟨a, b, c, le_trans d (by omega)⟩
    · rw [if_neg hlth]
      have hdone : lo = hi := by omega
      subst hdone
      exact ⟨hlo, fun j hj1 hj2 => hhigh j hj1 hj2, le_refl _, le_refl _⟩

/-- On a sorted list, `searchsorted xs t` is the split point: strictly
smaller values before it, values at or above `t` from it on. -/
theorem searchsorted_spec (xs : List ℚ) (t : ℚ)
    (hm : ∀ i j, i ≤ j → j < xs.length → xs.getD i 0 ≤ xs.getD j 0) :
    (∀ j, j < searchsorted xs t → xs.getD j 0 < t) ∧
    (∀ j, searchsorted xs t ≤ j → j < xs.length → t ≤ xs.getD j 0) ∧
    searchsorted xs t ≤ xs.length := by
  have h := bisectAux_invariant xs t hm xs.length 0 xs.length (by omega) (by omega)
    (le_refl _) (fun j hj => absurd hj (Nat.not_lt_zero j))
    (fun j hj1 hj2 => absurd hj2 (by omega))
  exact ⟨h.1, h.2.1, h.2.2.2⟩

/-- Strict sortedness (in `getD` form) implies the weak form used by the
bisection invariant. -/
theorem getD_mono_of_strict (xs : List ℚ)
    (hs : ∀ i j, i < j → j < xs.length → xs.getD i 0 < xs.getD j 0) :
    ∀ i j, i ≤ j → j < xs.length → xs.getD i 0 ≤ xs.getD j 0 := by
  intro i j hij hj
  rcases Nat.lt_or_eq_of_le hij with h | h
  · exact (hs i j h hj).le
  · rw [h]

/-- Searching for a value at or below the first element returns index 0. -/
theorem searchsorted_at_first (xs : List ℚ) (t : ℚ)
    (hm : ∀ i j, i ≤ j → j < xs.length → xs.getD i 0 ≤ xs.getD j 0)
    (ht : t ≤ xs.getD 0 0) :
    searchsorted xs t = 0 := by
  by_contra h
  have h0 : 0 < searchsorted xs t := Nat.pos_of_ne_zero h
  exact absurd ((searchsorted_spec xs t hm).1 0 h0) (not_lt.mpr ht)

/-- Searching a strictly sorted list for its own last element returns the
last index. -/
theorem searchsorted_at_last (xs : List ℚ)
    (hs : ∀ i j, i < j → j < xs.length → xs.getD i 0 < xs.getD j 0)
    (h2 : 2 ≤ xs.length) :
    searchsorted xs (xs.getD (xs.length - 1) 0) = xs.length - 1 := by
  obtain ⟨b1, b2, b3⟩ :=
    searchsorted_spec xs (xs.getD (xs.length - 1) 0) (getD_mono_of_strict xs hs)
  by_contra hne
  rcases Nat.lt_or_ge (searchsorted xs (xs.getD (xs.length - 1) 0)) (xs.length - 1)
    with hlt | hge
  · have hle := b2 _ (le_refl _) (by omega)
    exact absurd (lt_of_le_of_lt hle (hs _ _ hlt (by omega))) (lt_irrefl _)
  · have hn : searchsorted xs (xs.getD (xs.length - 1) 0) = xs.length := by omega
    have := b1 (xs.length - 1) (by omega)
    exact absurd this (lt_irrefl _)

/-! ## Linear interpolation at the boundary knots -/

/-- Evaluating the linear interpolant at the first knot of a strictly
increasing knot list returns the first data value exactly. -/
theorem callLinear_at_first (xs ys : List ℚ) (h2 : 2 ≤ xs.length)
    (hs : ∀ i j, i < j → j < xs.length → xs.getD i 0 < xs.getD j 0) :
    callLinear xs ys (xs.getD 0 0) = some (ys.getD 0 0) := by
  have hss : searchsorted xs (xs.getD 0 0) = 0 :=
    searchsorted_at_first xs _ (getD_mono_of_strict xs hs) (le_refl _)
  have hd : xs.getD 1 0 - xs.getD 0 0 ≠ 0 :=
    sub_ne_zero.mpr (ne_of_gt (hs 0 1 one_pos (by omega)))
  simp only [callLinear, hss]
  have hi1 : min (max 0 1) (xs.length - 1) = 1 := by omega
  rw [hi1]
  simp only [pyDivOpt, if_neg hd]
  norm_num

/-- Evaluating the linear interpolant at the last knot of a strictly
increasing knot list returns the last data value exactly. -/
theorem callLinear_at_last (xs ys : List ℚ) (h2 : 2 ≤ xs.length)
    (hs : ∀ i j, i < j → j < xs.length → xs.getD i 0 < xs.getD j 0) :
    callLinear xs ys (xs.getD (xs.length - 1) 0) =
      some (ys.getD (xs.length - 1) 0) := by
  have hss : searchsorted xs (xs.getD (xs.length - 1) 0) = xs.length - 1 :=
    searchsorted_at_last xs hs h2
  have hd : xs.getD (xs.length - 1) 0 - xs.getD (xs.length - 1 - 1) 0 ≠ 0 :=
    sub_ne_zero.mpr (ne_of_gt (hs (xs.length - 1 - 1) (xs.length - 1) (by omega) (by omega)))
  simp only [callLinear, hss]
  have hi1 : min (max (xs.length - 1) 1) (xs.length - 1) = xs.length - 1 := by omega
  rw [hi1]
  simp only [pyDivOpt, if_neg hd]
  congr 1
  rw [div_mul_eq_mul_div, mul_div_assoc, div_self hd, mul_one, sub_add_cancel]

/-! ## Cubic fit at the data sites -/

/-- A successful checked solve satisfies the full linear system. -/
theorem solveChecked_matVec (A : List (List ℚ)) (b c : List ℚ)
    (h : solveChecked A b = some c) :
    A.map (fun row => dotL row c) = b := by
  unfold solveChecked at h
  cases hg : gaussSolve A b with
  | none => rw [hg] at h; exact absurd h (by simp)
  | some c0 =>
    rw [hg] at h
    dsimp only at h
    by_cases hchk : A.map (fun row => dotL row c0) = b
    · rw [if_pos hchk] at h
      cases h
      exact hchk
    · rw [if_neg hchk] at h
      exact absurd h (by simp)

/-- When the cubic collocation solve succeeds, evaluating the fitted
B-spline at any data site returns that site's data value: the site's
collocation equation is a row of the solved system. -/
theorem callCubic_at_knot (xs ys : List ℚ) (i : ℕ) (hi : i < xs.length)
    (c : List ℚ) (hc : solveChecked (collocMat xs) ys = some c) :
    callCubic xs ys (xs.getD i 0) = some (ys.getD i 0) := by
  have hmv := solveChecked_matVec _ _ _ hc
  have hylen : ys.length = xs.length := by
    have hl := congrArg List.length hmv
    simpa [collocMat] using hl.symm
  unfold callCubic
  rw [hc]
  dsimp only
  have hgd := congrArg (fun l => l.getD i 0) hmv
  simp only [collocMat, List.map_map] at hgd
  rw [List.getD_eq_getElem _ 0 (by simpa using hi), List.getElem_map] at hgd
  rw [List.getD_eq_getElem _ 0 (by omega)] at hgd
  simp only [Function.comp] at hgd
  rw [List.getD_eq_getElem _ 0 hi, List.getD_eq_getElem _ 0 (by omega)]
  rw [hgd]

/-! ## Knot sequence facts -/

/-- The rational square-root model is positive on positive input. -/
theorem npSqrt_pos (q : ℚ) (h : 0 < q) : 0 < npSqrt q := by
  unfold npSqrt
  rw [Rat.sqrt, Rat.mkRat_eq_div]
  apply div_pos
  · have hnum : 0 < q.num := Rat.num_pos.mpr h
    have h1 : 0 < Nat.sqrt q.num.toNat := Nat.sqrt_pos.mpr (by omega)
    have h2 : (0 : ℤ) < Int.sqrt q.num := by
      unfold Int.sqrt
      exact_mod_cast h1
    exact_mod_cast h2
  · have h2 : 0 < Nat.sqrt q.den := Nat.sqrt_pos.mpr q.den_pos
    exact_mod_cast h2

/-- A sum of two squares is positive unless both terms vanish. -/
theorem sq_sum_pos (a b : ℚ) (h : a ≠ 0 ∨ b ≠ 0) : 0 < a * a + b * b := by
  rcases h with h | h
  · nlinarith [mul_self_pos.mpr h, mul_self_nonneg b]
  · nlinarith [mul_self_pos.mpr h, mul_self_nonneg a]

/-- Cumulative distances over a run of pairwise-distinct consecutive points
are strictly increasing from any starting accumulator. -/
theorem cumDistFrom_chain (l : List (ℚ × ℚ)) :
    ∀ (p : ℚ × ℚ) (acc : ℚ), List.Chain' (fun a b => a ≠ b) (p :: l) →
      List.Chain' (· < ·) (acc :: cumDistFrom acc p l) := by
  induction l with
  | nil =>
    intro p acc _
    simp [cumDistFrom]
  | cons q rest ih =>
    intro p acc h
    rw [List.chain'_cons] at h
    simp only [cumDistFrom]
    rw [List.chain'_cons]
    have hpos : 0 < npSqrt ((q.1 - p.1) * (q.1 - p.1) + (q.2 - p.2) * (q.2 - p.2)) := by
      apply npSqrt_pos
      apply sq_sum_pos
      by_contra hcon
      push_neg at hcon
      have h1 : p.1 = q.1 := by have := hcon.1; linarith
      have h2 : p.2 = q.2 := by have := hcon.2; linarith
      exact h.1 (Prod.ext h1 h2)
    exact ⟨by linarith, ih q _ h.2⟩

/-- Control points with no consecutive zero-distance pair give strictly
increasing cumulative-distance knots. -/
theorem pathKnots_chain (wps : List WayPt)
    (hnd : List.Chain' (fun a b => a.lon ≠ b.lon ∨ a.lat ≠ b.lat) wps) :
    List.Chain' (· < ·) (pathKnots wps) := by
  unfold pathKnots
  rw [List.zip_map']
  cases wps with
  | nil => simp [cumulativeDistances]
  | cons p rest =>
    simp only [List.map_cons, cumulativeDistances]
    apply cumDistFrom_chain
    show List.Chain' (fun a b => a ≠ b)
      (List.map (fun a => (a.lon, a.lat)) (p :: rest))
    rw [List.chain'_map]
    refine List.Chain'.imp ?_ hnd
    intro a b hab he
    rcases hab with h | h
    · exact h (congrArg Prod.fst he)
    · exact h (congrArg Prod.snd he)

/-- A strictly increasing list is strictly increasing in `getD` form. -/
theorem chain_imp_getD_strict (l : List ℚ) (hc : List.Chain' (· < ·) l) :
    ∀ i j, i < j → j < l.length → l.getD i 0 < l.getD j 0 := by
  intro i j hij hj
  have hi : i < l.length := lt_trans hij hj
  rw [List.getD_eq_getElem l 0 hi, List.getD_eq_getElem l 0 hj]
  exact List.pairwise_iff_getElem.mp (List.chain'_iff_pairwise.mp hc) i j hi hj hij

/-- The cumulative-distance parameter starts at `0`. -/
theorem pathKnots_getD_zero (wps : List WayPt) : (pathKnots wps).getD 0 0 = 0 := by
  cases wps <;> rfl

/-! ## Resampling grid facts -/

/-- `linspace` produces the requested number of samples. -/
theorem linspace_length (a b : ℚ) (n : ℕ) : (linspace a b n).length = n := by
  unfold linspace
  rw [List.length_map, List.length_range]

/-- `arange` produces the requested number of samples. -/
theorem arange_length (n : ℕ) : (arange n).length = n := by
  unfold arange
  rw [List.length_map, List.length_range]

/-- The first `linspace` sample is the start value. -/
theorem linspace_getD_zero (a b : ℚ) (n : ℕ) (h : 0 < n) :
    (linspace a b n).getD 0 0 = a := by
  unfold linspace
  rw [List.getD_eq_getElem _ _ (by rw [List.length_map, List.length_range]; exact h)]
  rw [List.getElem_map, List.getElem_range]
  simp

/-- The last `linspace` sample is the stop value (at least two samples). -/
theorem linspace_getD_last (a b : ℚ) (n : ℕ) (h : 2 ≤ n) :
    (linspace a b n).getD (n - 1) 0 = b := by
  unfold linspace
  rw [List.getD_eq_getElem _ _ (by rw [List.length_map, List.length_range]; omega)]
  rw [List.getElem_map, List.getElem_range]
  have hne : ((n : ℚ) - 1) ≠ 0 := by
    have h2 : (2 : ℚ) ≤ (n : ℚ) := by exact_mod_cast h
    linarith
  have hcast : ((n - 1 : ℕ) : ℚ) = (n : ℚ) - 1 := by
    have h1 : 1 ≤ n := by omega
    push_cast [h1]
    ring
  rw [hcast]
  field_simp

/-- The time axis always has the requested number of entries. -/
theorem newTimes_length (os : Option (List ℚ)) (M : ℕ) :
    (newTimes os M).length = M := by
  unfold newTimes
  cases os with
  | none =>
    dsimp only
    rw [List.length_map, arange_length]
  | some ts =>
    dsimp only
    by_cases h : ts.length = M
    · rw [if_pos h, List.length_map, h]
    · rw [if_neg h, List.length_map, linspace_length]

/-! ## Result-row access -/

/-- The shape of an `interpolate_path` result on at least two waypoints. -/
theorem interpolate_path_rows (wps : List WayPt) (M : ℕ) (os : Option (List ℚ))
    (h2 : 2 ≤ wps.length) :
    interpolate_path wps M os = .inr (List.zipWith
      (fun t d =>
        ({ time := t,
           x := mkInterp (pathKnots wps) (wps.map (·.lon)) (decide (3 < wps.length)) d,
           y := mkInterp (pathKnots wps) (wps.map (·.lat)) (decide (3 < wps.length)) d,
           lon := mkInterp (pathKnots wps) (wps.map (·.lon)) (decide (3 < wps.length)) d,
           lat := mkInterp (pathKnots wps) (wps.map (·.lat)) (decide (3 < wps.length)) d }
          : PathRow))
      (newTimes os M)
      (linspace ((pathKnots wps).getD 0 0)
        ((pathKnots wps).getD ((pathKnots wps).length - 1) 0) M)) := by
  simp only [interpolate_path, pathKnots]
  rw [if_neg (by omega)]

/-- Indexing into the zipped result rows. -/
theorem zipRows_getD (fx fy : ℚ → Option ℚ) (nt : List (Option ℚ)) (nd : List ℚ)
    (i : ℕ) (h1 : i < nt.length) (h2 : i < nd.length) :
    (List.zipWith
      (fun t d =>
        ({ time := t, x := fx d, y := fy d, lon := fx d, lat := fy d } : PathRow))
      nt nd).getD i default =
      { time := nt.getD i none, x := fx (nd.getD i 0), y := fy (nd.getD i 0),
        lon := fx (nd.getD i 0), lat := fy (nd.getD i 0) } := by
  rw [List.getD_eq_getElem _ _ (by simp [List.length_zipWith]; omega)]
  rw [List.getElem_zipWith]
  rw [List.getD_eq_getElem _ _ h1, List.getD_eq_getElem _ _ h2]

/-- Every element of the zipped result rows has `x` and `lon` (and `y` and
`lat`) built from the same interpolated value. -/
theorem eq_of_mem_zipWith {α β γ : Type} (f : α → β → γ) (l1 : List α)
    (l2 : List β) (x : γ) (h : x ∈ List.zipWith f l1 l2) :
    ∃ a b, x = f a b := by
  induction l1 generalizing l2 with
  | nil => simp at h
  | cons a l1 ih =>
    cases l2 with
    | nil => simp at h
    | cons b l2 =>
      rw [List.zipWith_cons_cons, List.mem_cons] at h
      rcases h with h | h
      · exact ⟨a, b, h⟩
      · exact ih l2 h

/-- `getD` through a column projection. -/
theorem map_getD_eq (f : WayPt → ℚ) (wps : List WayPt) (i : ℕ)
    (h : i < wps.length) :
    (wps.map f).getD i 0 = f (wps.getD i default) := by
  rw [List.getD_eq_getElem _ _ (by simpa using h), List.getElem_map,
    List.getD_eq_getElem _ _ h]

/-- `mkInterp` evaluated at the first knot: linear interpolation hits the
first data value on strictly increasing knots; the cubic fit does as soon as
its collocation solve succeeded. -/
theorem mkInterp_at_first (xs ys : List ℚ) (b : Bool) (h2 : 2 ≤ xs.length)
    (hs : ∀ i j, i < j → j < xs.length → xs.getD i 0 < xs.getD j 0)
    (hcub : b = true → ∃ c, solveChecked (collocMat xs) ys = some c) :
    mkInterp xs ys b (xs.getD 0 0) = some (ys.getD 0 0) := by
  cases b with
  | false =>
    simp only [mkInterp, Bool.false_eq_true, if_false]
    exact callLinear_at_first xs ys h2 hs
  | true =>
    obtain ⟨c, hc⟩ := hcub rfl
    simp only [mkInterp, if_true]
    exact callCubic_at_knot xs ys 0 (by omega) c hc

/-- `mkInterp` evaluated at the last knot: both kinds hit the last data
value. -/
theorem mkInterp_at_last (xs ys : List ℚ) (b : Bool) (h2 : 2 ≤ xs.length)
    (hs : ∀ i j, i < j → j < xs.length → xs.getD i 0 < xs.getD j 0)
    (hcub : b = true → ∃ c, solveChecked (collocMat xs) ys = some c) :
    mkInterp xs ys b (xs.getD (xs.length - 1) 0) =
      some (ys.getD (xs.length - 1) 0) := by
  cases b with
  | false =>
    simp only [mkInterp, Bool.false_eq_true, if_false]
    exact callLinear_at_last xs ys h2 hs
  | true =>
    obtain ⟨c, hc⟩ := hcub rfl
    simp only [mkInterp, if_true]
    exact callCubic_at_knot xs ys (xs.length - 1) (by omega) c hc

/-- General endpoint/length behavior of `interpolate_path`: on at least two
control points with no consecutive zero-distance pair and at least two
requested samples, the result has exactly the requested number of rows and
its first and last `(lon, lat)` equal the first and last control points
exactly — unconditionally in the linear regime (at most 3 points), and
whenever the collocation solve succeeded in the cubic regime. -/
theorem interp_endpoints_general (wps : List WayPt) (M : ℕ) (os : Option (List ℚ))
    (h2 : 2 ≤ wps.length) (hM : 2 ≤ M)
    (hnd : List.Chain' (fun a b => a.lon ≠ b.lon ∨ a.lat ≠ b.lat) wps)
    (hcub : 3 < wps.length →
      (∃ c, solveChecked (collocMat (pathKnots wps)) (wps.map (·.lon)) = some c) ∧
      (∃ c, solveChecked (collocMat (pathKnots wps)) (wps.map (·.lat)) = some c)) :
    (getRows (interpolate_path wps M os)).length = M ∧
    ((getRows (interpolate_path wps M os)).getD 0 default).lon =
      some ((wps.getD 0 default).lon) ∧
    ((getRows (interpolate_path wps M os)).getD 0 default).lat =
      some ((wps.getD 0 default).lat) ∧
    ((getRows (interpolate_path wps M os)).getD (M - 1) default).lon =
      some ((wps.getD (wps.length - 1) default).lon) ∧
    ((getRows (interpolate_path wps M os)).getD (M - 1) default).lat =
      some ((wps.getD (wps.length - 1) default).lat) := by
  have hne : wps ≠ [] := by
    intro h
    rw [h] at h2
    simp at h2
  have hklen : (pathKnots wps).length = wps.length := pathKnots_length wps hne
  have hchain := pathKnots_chain wps hnd
  have hstrict := chain_imp_getD_strict _ hchain
  have hk2 : 2 ≤ (pathKnots wps).length := by omega
  have hcubx : decide (3 < wps.length) = true →
      ∃ c, solveChecked (collocMat (pathKnots wps)) (wps.map (·.lon)) = some c :=
    fun hb => (hcub (of_decide_eq_true hb)).1
  have hcuby : decide (3 < wps.length) = true →
      ∃ c, solveChecked (collocMat (pathKnots wps)) (wps.map (·.lat)) = some c :=
    fun hb => (hcub (of_decide_eq_true hb)).2
  rw [interpolate_path_rows wps M os h2]
  simp only [getRows]
  have hntl : (newTimes os M).length = M := newTimes_length os M
  have hndl : (linspace ((pathKnots wps).getD 0 0)
      ((pathKnots wps).getD ((pathKnots wps).length - 1) 0) M).length = M :=
    linspace_length _ _ _
  refine ⟨?_, ?_, ?_, ?_, ?_⟩
  · rw [List.length_zipWith, hntl, hndl, Nat.min_self]
  · rw [zipRows_getD _ _ _ _ 0 (by omega) (by omega)]
    dsimp only
    rw [linspace_getD_zero _ _ _ (by omega)]
    rw [mkInterp_at_first _ _ _ hk2 hstrict hcubx]
    rw [map_getD_eq _ _ _ (by omega)]
  · rw [zipRows_getD _ _ _ _ 0 (by omega) (by omega)]
    dsimp only
    rw [linspace_getD_zero _ _ _ (by omega)]
    rw [mkInterp_at_first _ _ _ hk2 hstrict hcuby]
    rw [map_getD_eq _ _ _ (by omega)]
  · rw [zipRows_getD _ _ _ _ (M - 1) (by omega) (by omega)]
    dsimp only
    rw [linspace_getD_last _ _ _ hM]
    rw [mkInterp_at_last _ _ _ hk2 hstrict hcubx]
    rw [hklen]
    rw [map_getD_eq _ _ _ (by omega)]
  · rw [zipRows_getD _ _ _ _ (M - 1) (by omega) (by omega)]
    dsimp only
    rw [linspace_getD_last _ _ _ hM]
    rw [mkInterp_at_last _ _ _ hk2 hstrict hcuby]
    rw [hklen]
    rw [map_getD_eq _ _ _ (by omega)]

/-! ## Claim C3 -/

/-- Claim C3 amended: for control-point sets of size ≥ 2 with no two
consecutive points at zero planar distance and any requested length M ≥ 2,
the trajectory has exactly M samples and its first and last `(lat, lon)`
equal the first and last control points exactly; in the cubic regime
(more than 3 points) the endpoint equalities hold whenever the spline
collocation solve succeeded.  (With no zero-distance pair, the
duplicate-merged set of the claim coincides with the input set.) -/
theorem c3_amended (wps : List WayPt) (M : ℕ) (os : Option (List ℚ))
    (h2 : 2 ≤ wps.length) (hM : 2 ≤ M)
    (hnd : List.Chain' (fun a b => a.lon ≠ b.lon ∨ a.lat ≠ b.lat) wps)
    (hcub : 3 < wps.length →
      (∃ c, solveChecked (collocMat (pathKnots wps)) (wps.map (·.lon)) = some c) ∧
      (∃ c, solveChecked (collocMat (pathKnots wps)) (wps.map (·.lat)) = some c)) :
    (getRows (interpolate_path wps M os)).length = M ∧
    ((getRows (interpolate_path wps M os)).getD 0 default).lon =
      some ((wps.getD 0 default).lon) ∧
    ((getRows (interpolate_path wps M os)).getD 0 default).lat =
      some ((wps.getD 0 default).lat) ∧
    ((getRows (interpolate_path wps M os)).getD (M - 1) default).lon =
      some ((wps.getD (wps.length - 1) default).lon) ∧
    ((getRows (interpolate_path wps M os)).getD (M - 1) default).lat =
      some ((wps.getD (wps.length - 1) default).lat) :=
  interp_endpoints_general wps M os h2 hM hnd hcub

/-- Claim C3 amended, witness: the three-point scenario instantiates every
hypothesis and the conclusion concretely. -/
theorem c3_amended_witness :
    (2 ≤ threePointLine.length ∧ (2 : ℕ) ≤ 3 ∧
      List.Chain' (fun a b => a.lon ≠ b.lon ∨ a.lat ≠ b.lat) threePointLine) ∧
    ((getRows (interpolate_path threePointLine 3 none)).length = 3 ∧
    ((getRows (interpolate_path threePointLine 3 none)).getD 0 default).lon =
      some ((threePointLine.getD 0 default).lon) ∧
    ((getRows (interpolate_path threePointLine 3 none)).getD 0 default).lat =
      some ((threePointLine.getD 0 default).lat) ∧
    ((getRows (interpolate_path threePointLine 3 none)).getD (3 - 1) default).lon =
      some ((threePointLine.getD (threePointLine.length - 1) default).lon) ∧
    ((getRows (interpolate_path threePointLine 3 none)).getD (3 - 1) default).lat =
      some ((threePointLine.getD (threePointLine.length - 1) default).lat)) :=
  ⟨⟨by decide, by decide, by norm_num [threePointLine, List.chain'_cons]⟩,
    c3_amended threePointLine 3 none (by decide) (by decide)
      (by norm_num [threePointLine, List.chain'_cons])
      (fun h => absurd h (by decide))⟩

/-! ## Exact square-root evaluations and further access lemmas -/

/-- `npSqrt` is exact on perfect squares. -/
theorem npSqrt_eval (q r : ℚ) (h : 0 ≤ r) (he : q = r * r) : npSqrt q = r := by
  rw [he]
  unfold npSqrt
  rw [Rat.sqrt_eq]
  exact abs_of_nonneg h

/-- `getD` through a map, with explicit defaults. -/
theorem getD_map_of_lt {α β : Type} (f : α → β) (l : List α)
    (da : α) (db : β) (i : ℕ) (h : i < l.length) :
    (l.map f).getD i db = f (l.getD i da) := by
  rw [List.getD_eq_getElem _ _ (by simpa using h), List.getElem_map,
    List.getD_eq_getElem _ _ h]

/-- The `time` column of the zipped result rows is the time list itself. -/
theorem zipRows_map_time (fx fy : ℚ → Option ℚ) (nt : List (Option ℚ))
    (nd : List ℚ) (h : nt.length ≤ nd.length) :
    (List.zipWith
      (fun t d =>
        ({ time := t, x := fx d, y := fy d, lon := fx d, lat := fy d } : PathRow))
      nt nd).map PathRow.time = nt := by
  induction nt generalizing nd with
  | nil => simp
  | cons t nts ih =>
    cases nd with
    | nil => simp at h
    | cons d nds =>
      rw [List.zipWith_cons_cons, List.map_cons]
      rw [ih nds (by simpa using h)]

/-- `arange` is strictly increasing. -/
theorem arange_chain (n : ℕ) : List.Chain' (· < ·) (arange n) := by
  rw [List.chain'_iff_pairwise]
  unfold arange
  refine List.Pairwise.map _ ?_ (List.pairwise_lt_range n)
  intro a b hab
  exact_mod_cast hab

/-- A general `linspace` entry. -/
theorem linspace_getD_idx (a b : ℚ) (n i : ℕ) (hi : i < n) :
    (linspace a b n).getD i 0 = a + (i : ℚ) * (b - a) / ((n : ℚ) - 1) := by
  unfold linspace
  rw [List.getD_eq_getElem _ _ (by rw [List.length_map, List.length_range]; omega)]
  rw [List.getElem_map, List.getElem_range]

/-- A nondecreasing list is nondecreasing in `getD` form. -/
theorem chain_le_getD_mono (l : List ℚ) (hc : List.Chain' (· ≤ ·) l) :
    ∀ i j, i ≤ j → j < l.length → l.getD i 0 ≤ l.getD j 0 := by
  intro i j hij hj
  rcases Nat.lt_or_eq_of_le hij with h | h
  · have hi : i < l.length := lt_trans h hj
    rw [List.getD_eq_getElem l 0 hi, List.getD_eq_getElem l 0 hj]
    exact List.pairwise_iff_getElem.mp (List.chain'_iff_pairwise.mp hc) i j hi hj h
  · rw [h]

/-- General structure of `initialize_waypoints_from_trajectory` with an
explicitly supplied count `c ≥ 2` on a trajectory of at least 2 samples:
exactly `c` waypoints; waypoint `i` is a copy of the sample at index
`min(searchsorted(times, t_i), len-1)` with its time overwritten by the
target time `t_i` from `linspace(min, max, c)`; and (on nondecreasing times)
every sample strictly before the searched index is strictly earlier than the
target time — the selected sample is the first one at-or-after the target,
not the nearest preceding one. -/
theorem init_waypoints_general (traj : List WayPt) (c : ℕ) (h2 : 2 ≤ traj.length)
    (hc : 2 ≤ c)
    (hsort : List.Chain' (· ≤ ·) (traj.map (·.time))) :
    (initialize_waypoints_from_trajectory traj (some c)).length = c ∧
    (∀ i, i < c →
      (initialize_waypoints_from_trajectory traj (some c)).getD i default =
        { traj.getD (min (searchsorted (traj.map (·.time))
              ((linspace (listMin (traj.map (·.time)))
                (listMax (traj.map (·.time))) c).getD i 0))
            (traj.length - 1)) default with
          time := (linspace (listMin (traj.map (·.time)))
            (listMax (traj.map (·.time))) c).getD i 0 }) ∧
    (∀ i, i < c → ∀ j,
      j < searchsorted (traj.map (·.time))
          ((linspace (listMin (traj.map (·.time)))
            (listMax (traj.map (·.time))) c).getD i 0) →
      (traj.map (·.time)).getD j 0 <
        (linspace (listMin (traj.map (·.time)))
          (listMax (traj.map (·.time))) c).getD i 0) := by
  have hnot : ¬(traj.length < 2) := by omega
  have hne1 : ¬(c = 1) := by omega
  unfold initialize_waypoints_from_trajectory
  rw [if_neg hnot]
  dsimp only [Option.getD]
  rw [if_neg hne1]
  refine ⟨?_, ?_, ?_⟩
  · rw [List.length_map, linspace_length]
  · intro i hi
    rw [getD_map_of_lt _ _ 0 default i (by rw [linspace_length]; omega)]
  · intro i hi j hj
    exact (searchsorted_spec _ _ (chain_le_getD_mono _ hsort)).1 j hj

/-! ## Claim C10 -/

/-- Claim C10: on at least two waypoints with `lat`/`lon` columns, the
result is the interpolated DataFrame and in every row the `x` and `lon`
columns (and the `y` and `lat` columns) are the same value: the spline was
fit directly on raw longitude/latitude degrees, with no planar conversion in
either direction. -/
theorem c10_columns (wps : List WayPt) (M : ℕ) (os : Option (List ℚ))
    (h2 : 2 ≤ wps.length) :
    interpolate_path wps M os = .inr (getRows (interpolate_path wps M os)) ∧
    ∀ r ∈ getRows (interpolate_path wps M os), r.x = r.lon ∧ r.y = r.lat := by
  rw [interpolate_path_rows wps M os h2]
  simp only [getRows]
  refine ⟨by simp, ?_⟩
  intro r hr
  obtain ⟨a, b, hab⟩ := eq_of_mem_zipWith _ _ _ _ hr
  subst hab
  exact ⟨rfl, rfl⟩

/-- Claim C10, witness: the two-point scenario instantiates the hypothesis
and conclusion concretely. -/
theorem c10_columns_witness :
    2 ≤ twoPointLine.length ∧
    (interpolate_path twoPointLine 2 none =
        .inr (getRows (interpolate_path twoPointLine 2 none)) ∧
      ∀ r ∈ getRows (interpolate_path twoPointLine 2 none),
        r.x = r.lon ∧ r.y = r.lat) :=
  ⟨by decide, c10_columns twoPointLine 2 none (by decide)⟩

/-! ## Claim C1 -/

/-- Claim C1 counterexample: in the concrete scenario with `os_data=None`,
the last of the 50 time values is `49` (index-based `np.arange` time), not
`20` as the claim states. -/
theorem c1_counterexample :
    ((getRows (interpolate_path c1ControlPoints 50 none)).getD 49 default).time =
      some 49 ∧
    ((getRows (interpolate_path c1ControlPoints 50 none)).getD 49 default).time ≠
      some 20 := by
  have h : ((getRows (interpolate_path c1ControlPoints 50 none)).getD 49
      default).time = some 49 := by
    rw [interpolate_path_rows c1ControlPoints 50 none (by decide)]
    simp only [getRows]
    rw [zipRows_getD _ _ _ _ 49 (by rw [newTimes_length]; omega)
      (by rw [linspace_length]; omega)]
    dsimp only
    show ((arange 50).map some).getD 49 none = some 49
    rw [getD_map_of_lt some (arange 50) 0 none 49 (by rw [arange_length]; omega)]
    unfold arange
    rw [List.getD_eq_getElem _ _ (by rw [List.length_map, List.length_range]; omega)]
    rw [List.getElem_map, List.getElem_range]
    norm_num
  refine ⟨h, ?_⟩
  rw [h]
  intro hcon
  exact absurd (Option.some.inj hcon) (by norm_num)

/-- Claim C1 amended: the concrete scenario with `outputLength=50` and
`os_data=None` yields 50 rows; the time column is the index vector
`arange(50)` (strictly increasing, `time[0]=0`, `time[49]=49` — not 20); and
the first and last `(lat, lon)` samples are `(0, 0)` and `(0.01, 0.02)`
exactly. -/
theorem c1_amended :
    (getRows (interpolate_path c1ControlPoints 50 none)).length = 50 ∧
    (getRows (interpolate_path c1ControlPoints 50 none)).map PathRow.time =
      (arange 50).map some ∧
    List.Chain' (· < ·) (arange 50) ∧
    ((getRows (interpolate_path c1ControlPoints 50 none)).getD 0 default).time =
      some 0 ∧
    ((getRows (interpolate_path c1ControlPoints 50 none)).getD 49 default).time =
      some 49 ∧
    ((getRows (interpolate_path c1ControlPoints 50 none)).getD 0 default).lat =
      some 0 ∧
    ((getRows (interpolate_path c1ControlPoints 50 none)).getD 0 default).lon =
      some 0 ∧
    ((getRows (interpolate_path c1ControlPoints 50 none)).getD 49 default).lat =
      some (1/100) ∧
    ((getRows (interpolate_path c1ControlPoints 50 none)).getD 49 default).lon =
      some (1/50) := by
  obtain ⟨hlen, hlon0, hlat0, hlonl, hlatl⟩ :=
    interp_endpoints_general c1ControlPoints 50 none (by decide) (by decide)
      (by norm_num [c1ControlPoints, List.chain'_cons])
      (fun h => absurd h (by decide))
  have htime : ∀ i : ℕ, i < 50 →
      ((getRows (interpolate_path c1ControlPoints 50 none)).getD i
        default).time = some (i : ℚ) := by
    intro i hi
    rw [interpolate_path_rows c1ControlPoints 50 none (by decide)]
    simp only [getRows]
    rw [zipRows_getD _ _ _ _ i (by rw [newTimes_length]; omega)
      (by rw [linspace_length]; omega)]
    dsimp only
    show ((arange 50).map some).getD i none = some (i : ℚ)
    rw [getD_map_of_lt some (arange 50) 0 none i (by rw [arange_length]; omega)]
    unfold arange
    rw [List.getD_eq_getElem _ _ (by rw [List.length_map, List.length_range]; omega)]
    rw [List.getElem_map, List.getElem_range]
  have htimes : (getRows (interpolate_path c1ControlPoints 50 none)).map
      PathRow.time = (arange 50).map some := by
    rw [interpolate_path_rows c1ControlPoints 50 none (by decide)]
    simp only [getRows]
    rw [zipRows_map_time _ _ _ _ (by rw [newTimes_length, linspace_length])]
    rfl
  refine ⟨hlen, htimes, arange_chain 50, ?_, ?_, ?_, ?_, ?_, ?_⟩
  · have h0 := htime 0 (by omega)
    rw [h0]
    norm_num
  · have h49 := htime 49 (by omega)
    rw [h49]
    norm_num
  · rw [hlat0]
    rfl
  · rw [hlon0]
    rfl
  · rw [show (49 : ℕ) = 50 - 1 from rfl, hlatl]
    rfl
  · rw [show (49 : ℕ) = 50 - 1 from rfl, hlonl]
    rfl

/-! ## Claim C2 -/

/-- Claim C2 counterexample: with the first control point duplicated, the
cumulative arc-length parameter keeps all three entries — the later
duplicate is not dropped, its knot coincides with its predecessor's — and
the first interpolated sample divides by the zero-length knot interval,
producing a nonfinite (`none`) value. -/
theorem c2_counterexample :
    pathKnots c2DupInput = [0, 0, 1] ∧
    ((getRows (interpolate_path c2DupInput 5 none)).getD 0 default).x = none := by
  have hA : npSqrt 0 = 0 := npSqrt_eval 0 0 le_rfl (by norm_num)
  have hB : npSqrt 1 = 1 := npSqrt_eval 1 1 (by norm_num) (by norm_num)
  have hpk : pathKnots c2DupInput = [0, 0, 1] := by
    simp only [pathKnots, c2DupInput, List.map_cons, List.map_nil,
      List.zip_cons_cons, List.zip_nil_left, cumulativeDistances, cumDistFrom]
    norm_num [hA, hB]
  refine ⟨hpk, ?_⟩
  rw [interpolate_path_rows c2DupInput 5 none (by decide)]
  simp only [getRows]
  rw [zipRows_getD _ _ _ _ 0 (by rw [newTimes_length]; omega)
    (by rw [linspace_length]; omega)]
  dsimp only
  rw [linspace_getD_zero _ _ _ (by omega), pathKnots_getD_zero]
  have hb : decide (3 < c2DupInput.length) = false := by decide
  rw [hb]
  simp only [mkInterp, Bool.false_eq_true, if_false]
  rw [hpk]
  norm_num [c2DupInput, callLinear, searchsorted, bisectAux, pyDivOpt,
    List.getD_cons_zero, List.getD_cons_succ, List.map_cons, List.map_nil]

/-- Claim C2 amended: `interpolate_path` performs no duplicate merging: the
cumulative arc-length parameter always has one entry per control point, and
a consecutive duplicate pair yields a zero-length knot interval whose slope
denominator is zero, making the affected output samples nonfinite (NaN)
instead of the interpolation being protected by a merge step. -/
theorem c2_amended :
    (∀ (p : WayPt) (wps : List WayPt),
      (pathKnots (p :: wps)).length = wps.length + 1) ∧
    ((getRows (interpolate_path c2DupInput 5 none)).getD 0 default).lat = none := by
  constructor
  · intro p wps
    rw [pathKnots_length _ (by simp)]
    rfl
  · have hA : npSqrt 0 = 0 := npSqrt_eval 0 0 le_rfl (by norm_num)
    have hB : npSqrt 1 = 1 := npSqrt_eval 1 1 (by norm_num) (by norm_num)
    have hpk : pathKnots c2DupInput = [0, 0, 1] := by
      simp only [pathKnots, c2DupInput, List.map_cons, List.map_nil,
        List.zip_cons_cons, List.zip_nil_left, cumulativeDistances, cumDistFrom]
      norm_num [hA, hB]
    rw [interpolate_path_rows c2DupInput 5 none (by decide)]
    simp only [getRows]
    rw [zipRows_getD _ _ _ _ 0 (by rw [newTimes_length]; omega)
      (by rw [linspace_length]; omega)]
    dsimp only
    rw [linspace_getD_zero _ _ _ (by omega), pathKnots_getD_zero]
    have hb : decide (3 < c2DupInput.length) = false := by decide
    rw [hb]
    simp only [mkInterp, Bool.false_eq_true, if_false]
    rw [hpk]
    norm_num [c2DupInput, callLinear, searchsorted, bisectAux, pyDivOpt,
      List.getD_cons_zero, List.getD_cons_succ, List.map_cons, List.map_nil]

/-- Claim C3 counterexample: with a duplicated leading control point the
first output sample's latitude is nonfinite (NaN), not the latitude of the
duplicate-merged first control point. -/
theorem c3_counterexample :
    (specMergeDuplicates c3DupInput).getD 0 default = ⟨0, 2, 5⟩ ∧
    ((getRows (interpolate_path c3DupInput 4 none)).getD 0 default).lat = none ∧
    ((getRows (interpolate_path c3DupInput 4 none)).getD 0 default).lat ≠
      some ((specMergeDuplicates c3DupInput).getD 0 default).lat := by
  have hmerge : (specMergeDuplicates c3DupInput).getD 0 default = ⟨0, 2, 5⟩ := by
    norm_num [specMergeDuplicates, specMergeAux, c3DupInput]
  have hA : npSqrt 0 = 0 := npSqrt_eval 0 0 le_rfl (by norm_num)
  have hB : npSqrt 4 = 2 := npSqrt_eval 4 2 (by norm_num) (by norm_num)
  have hpk : pathKnots c3DupInput = [0, 0, 2] := by
    simp only [pathKnots, c3DupInput, List.map_cons, List.map_nil,
      List.zip_cons_cons, List.zip_nil_left, cumulativeDistances, cumDistFrom]
    norm_num [hA, hB]
  have hnan : ((getRows (interpolate_path c3DupInput 4 none)).getD 0
      default).lat = none := by
    rw [interpolate_path_rows c3DupInput 4 none (by decide)]
    simp only [getRows]
    rw [zipRows_getD _ _ _ _ 0 (by rw [newTimes_length]; omega)
      (by rw [linspace_length]; omega)]
    dsimp only
    rw [linspace_getD_zero _ _ _ (by omega), pathKnots_getD_zero]
    have hb : decide (3 < c3DupInput.length) = false := by decide
    rw [hb]
    simp only [mkInterp, Bool.false_eq_true, if_false]
    rw [hpk]
    norm_num [c3DupInput, callLinear, searchsorted, bisectAux, pyDivOpt,
      List.getD_cons_zero, List.getD_cons_succ, List.map_cons, List.map_nil]
  refine ⟨hmerge, hnan, ?_⟩
  rw [hnan]
  simp

/-! ## Claim C4 -/

/-- Claim C4 counterexample: on a 2-sample trajectory an explicit count of 3
yields 3 waypoints — no clamping to `[2, len]` — and the middle waypoint
(target time 5) copies its lat/lon from the sample at time 10 (the first one
at-or-after the target), not from the nearest preceding sample at time 0. -/
theorem c4_counterexample :
    (initialize_waypoints_from_trajectory c4TwoSampleTraj (some 3)).length = 3 ∧
    ¬((initialize_waypoints_from_trajectory c4TwoSampleTraj (some 3)).length ≤
        c4TwoSampleTraj.length) ∧
    (initialize_waypoints_from_trajectory c4TwoSampleTraj (some 3)).getD 1 default =
      ⟨5, 1, 1⟩ ∧
    (⟨5, 1, 1⟩ : WayPt).lat ≠ (c4TwoSampleTraj.getD 0 default).lat := by
  obtain ⟨hlen, hval, _⟩ := init_waypoints_general c4TwoSampleTraj 3 (by decide)
    (by decide) (by norm_num [c4TwoSampleTraj, List.chain'_cons])
  have ht : c4TwoSampleTraj.map (·.time) = [0, 10] := rfl
  have hmin : listMin [(0 : ℚ), 10] = 0 := by simp [listMin]
  have hmax : listMax [(0 : ℚ), 10] = 10 := by simp [listMax]
  have ht1 : (linspace 0 10 3).getD 1 0 = 5 := by
    rw [linspace_getD_idx 0 10 3 1 (by omega)]
    norm_num
  have hss : searchsorted [(0 : ℚ), 10] 5 = 1 := by
    norm_num [searchsorted, bisectAux, List.getD_cons_zero, List.getD_cons_succ]
  refine ⟨hlen, by rw [hlen]; decide, ?_, by norm_num [c4TwoSampleTraj]⟩
  have h1 := hval 1 (by omega)
  rw [ht, hmin, hmax, ht1, hss] at h1
  rw [h1]
  rfl

/-- Claim C4 amended: an explicitly supplied count is not clamped —
`initialize_waypoints_from_trajectory` returns exactly `count` waypoints for
every `count ≥ 2` on a trajectory of at least 2 samples; target times are
evenly spaced between the minimum and maximum trajectory time; and each
waypoint copies lat/lon from the sample at index
`min(searchsorted(times, t), len-1)` — the first sample at-or-after the
target time (every earlier sample is strictly before it), not the nearest
preceding one — with the waypoint's time set to the target time. -/
theorem c4_amended (traj : List WayPt) (c : ℕ) (h2 : 2 ≤ traj.length)
    (hc : 2 ≤ c)
    (hsort : List.Chain' (· ≤ ·) (traj.map (·.time))) :
    (initialize_waypoints_from_trajectory traj (some c)).length = c ∧
    (∀ i, i < c →
      (initialize_waypoints_from_trajectory traj (some c)).getD i default =
        { traj.getD (min (searchsorted (traj.map (·.time))
              ((linspace (listMin (traj.map (·.time)))
                (listMax (traj.map (·.time))) c).getD i 0))
            (traj.length - 1)) default with
          time := (linspace (listMin (traj.map (·.time)))
            (listMax (traj.map (·.time))) c).getD i 0 }) ∧
    (∀ i, i < c → ∀ j,
      j < searchsorted (traj.map (·.time))
          ((linspace (listMin (traj.map (·.time)))
            (listMax (traj.map (·.time))) c).getD i 0) →
      (traj.map (·.time)).getD j 0 <
        (linspace (listMin (traj.map (·.time)))
          (listMax (traj.map (·.time))) c).getD i 0) :=
  init_waypoints_general traj c h2 hc hsort

/-- Claim C4 amended, witness: the 2-sample trajectory with count 2
instantiates every hypothesis and the conclusion concretely. -/
theorem c4_amended_witness :
    (2 ≤ c4TwoSampleTraj.length ∧ (2 : ℕ) ≤ 2 ∧
      List.Chain' (· ≤ ·) (c4TwoSampleTraj.map (·.time))) ∧
    ((initialize_waypoints_from_trajectory c4TwoSampleTraj (some 2)).length = 2 ∧
    (∀ i, i < 2 →
      (initialize_waypoints_from_trajectory c4TwoSampleTraj (some 2)).getD i default =
        { c4TwoSampleTraj.getD (min (searchsorted (c4TwoSampleTraj.map (·.time))
              ((linspace (listMin (c4TwoSampleTraj.map (·.time)))
                (listMax (c4TwoSampleTraj.map (·.time))) 2).getD i 0))
            (c4TwoSampleTraj.length - 1)) default with
          time := (linspace (listMin (c4TwoSampleTraj.map (·.time)))
            (listMax (c4TwoSampleTraj.map (·.time))) 2).getD i 0 }) ∧
    (∀ i, i < 2 → ∀ j,
      j < searchsorted (c4TwoSampleTraj.map (·.time))
          ((linspace (listMin (c4TwoSampleTraj.map (·.time)))
            (listMax (c4TwoSampleTraj.map (·.time))) 2).getD i 0) →
      (c4TwoSampleTraj.map (·.time)).getD j 0 <
        (linspace (listMin (c4TwoSampleTraj.map (·.time)))
          (listMax (c4TwoSampleTraj.map (·.time))) 2).getD i 0)) :=
  ⟨⟨by decide, by decide, by norm_num [c4TwoSampleTraj, List.chain'_cons]⟩,
    c4_amended c4TwoSampleTraj 2 (by decide) (by decide)
      (by norm_num [c4TwoSampleTraj, List.chain'_cons])⟩

end EEBH
